import Mathlib

/-!
Verification of the viewport driver of mashlife_gui (src/app.rs).

The embedding below translates the Rust source into Lean:
pixel and grid coordinates (egui f32 values) become rational numbers,
the HashSet based collections become lists without duplicates, and the
external mashlife oracle (HashLife, Handle) is modelled from the spec
as a characteristic function on the integer lattice.
-/

/-- A lattice coordinate, from the source alias Coord = (i64, i64). -/
abbrev Coord : Type := ℤ × ℤ

/-- Modelled from the spec: a Handle is an opaque reference to an immutable
lattice state owned by the oracle (the mashlife crate is not part of this
repository); we model the state it denotes as its characteristic function. -/
def Handle : Type := Coord → Bool

/-- Modelled from the spec: oracle operation read(handle, coord) -> bool. -/
def HashLife.read (h : Handle) (c : Coord) : Bool := h c

/-- Modelled from the spec: oracle operation modify(handle, coord, value, depth)
returns a new Handle reflecting the single cell change. -/
def HashLife.modify (h : Handle) (c : Coord) (value : Bool) (_n : ℕ) : Handle :=
  fun c2 => if c2 = c then value else h c2

/-- From src/app.rs: const MAX_N: usize = 62. -/
def MAX_N : ℕ := 62

/-- The view state, from struct GridView in src/app.rs.  center is the center
of the view in grid units, scale is pixels per tile, grid is the set of cells
which are on (i32 pairs in the source), queued_changes are the pending edits. -/
structure GridView where
  center : ℚ × ℚ
  scale : ℚ
  grid : List (ℤ × ℤ)
  queued_changes : List Coord

/-- GridView::new, via from_grid: scale 20, center at the origin, empty sets. -/
def GridView.new : GridView :=
  { center := (0, 0), scale := 20, grid := [], queued_changes := [] }

/-- GridView::min_n from the source: (1. / self.scale).log2() as usize.
Int.log is the floor of the base 2 logarithm; Int.toNat models the saturating
float to usize cast of Rust (negative results and NaN go to 0). -/
def GridView.min_n (v : GridView) : ℕ :=
  (Int.log 2 (1 / v.scale)).toNat

/-- GridView::drag from the source: self.center -= delta / self.scale. -/
def GridView.drag (v : GridView) (delta : ℚ × ℚ) : GridView :=
  { v with center := (v.center.1 - delta.1 / v.scale, v.center.2 - delta.2 / v.scale) }

/-- GridView::calc_cursor_grid from the source: the cursor offset from the
viewport center, in grid units: (cursor_px - view_size_px / 2) / scale. -/
def GridView.calc_cursor_grid (v : GridView) (cursor_px view_size_px : ℚ × ℚ) : ℚ × ℚ :=
  ((cursor_px.1 - view_size_px.1 / 2) / v.scale,
   (cursor_px.2 - view_size_px.2 / 2) / v.scale)

/-- The grid point under a cursor pixel: center + calc_cursor_grid, exactly the
cursor_pos_grid value computed in GridView::modify (the pixel to grid map). -/
def GridView.cursor_pos_grid (v : GridView) (cursor_px view_size_px : ℚ × ℚ) : ℚ × ℚ :=
  (v.center.1 + (v.calc_cursor_grid cursor_px view_size_px).1,
   v.center.2 + (v.calc_cursor_grid cursor_px view_size_px).2)

/-- GridView::zoom from the source.  Note the order: the scale is updated
first, and the cursor offset is computed with the updated scale:
self.scale += delta * self.scale;
self.center += self.calc_cursor_grid(cursor_px, view_size_px) * delta. -/
def GridView.zoom (v : GridView) (delta : ℚ) (cursor_px view_size_px : ℚ × ℚ) : GridView :=
  let v1 : GridView := { v with scale := v.scale + delta * v.scale }
  let off := v1.calc_cursor_grid cursor_px view_size_px
  { v1 with center := (v1.center.1 + off.1 * delta, v1.center.2 + off.2 * delta) }

/-- Rust f32 round: round to nearest, ties away from zero. -/
def roundAway (q : ℚ) : ℤ :=
  if 0 ≤ q then ⌊q + 1 / 2⌋ else -⌊-q + 1 / 2⌋

/-- HashSet::insert on the queued_changes set: a list kept free of duplicates. -/
def queueInsert (q : List Coord) (c : Coord) : List Coord :=
  if c ∈ q then q else c :: q

/-- GridView::modify from the source (handling a click): round the grid point
under the cursor to the nearest lattice coordinate and insert it into
queued_changes. -/
def GridView.modify (v : GridView) (cursor_px view_size_px : ℚ × ℚ) : GridView :=
  let cursor_pos := v.cursor_pos_grid cursor_px view_size_px
  let cursor_off_grid_int : Coord := (roundAway cursor_pos.1, roundAway cursor_pos.2)
  { v with queued_changes := queueInsert v.queued_changes cursor_off_grid_int }

/-- An axis aligned rectangle, from egui Rect (min and max corners). -/
structure Rect where
  min : ℚ × ℚ
  max : ℚ × ℚ

/-- egui Rect::from_center_size: min = center - size/2, max = center + size/2. -/
def Rect.from_center_size (c size : ℚ × ℚ) : Rect :=
  { min := (c.1 - size.1 / 2, c.2 - size.2 / 2),
    max := (c.1 + size.1 / 2, c.2 + size.2 / 2) }

/-- egui Rect::intersects: overlap test with closed comparisons on both axes. -/
def Rect.intersects (a b : Rect) : Bool :=
  decide (a.min.1 ≤ b.max.1) && decide (b.min.1 ≤ a.max.1) &&
  decide (a.min.2 ≤ b.max.2) && decide (b.min.2 ≤ a.max.2)

/-- GridView::viewbox_grid from the source: the current view rect in grid
space, centered on center with size view_size_px / scale. -/
def GridView.viewbox_grid (v : GridView) (view_size_px : ℚ × ℚ) : Rect :=
  Rect.from_center_size v.center (view_size_px.1 / v.scale, view_size_px.2 / v.scale)

/-- The grid to pixel placement used in GridView::view_rects:
(pos_grid - center) * scale + view_center_px, with view_center_px = size / 2. -/
def GridView.grid_to_px (v : GridView) (pos_grid view_size_px : ℚ × ℚ) : ℚ × ℚ :=
  ((pos_grid.1 - v.center.1) * v.scale + view_size_px.1 / 2,
   (pos_grid.2 - v.center.2) * v.scale + view_size_px.2 / 2)

/-- The `as i32` narrowing cast of Rust on a 64 bit signed value: wrap into
the interval from -2^31 to 2^31 - 1. -/
def toI32 (z : ℤ) : ℤ :=
  (z + 2 ^ 31) % 2 ^ 32 - 2 ^ 31

/-- The narrowing cast is the identity exactly on the i32 range. -/
theorem toI32_eq_self (z : ℤ) (h1 : -2 ^ 31 ≤ z) (h2 : z < 2 ^ 31) : toI32 z = z := by
  rw [toI32, Int.emod_eq_of_lt (by linarith) (by norm_num; linarith)]
  ring

/-- The shift 1 << n at type i32 (the inferred type of the literal in the
cell_scale_grid line of GridView::view_rects): a shift amount of 32 or more
is a shift overflow (a panic under debug assertions), below that the result
is the i32 value of 2^n, which wraps to -2^31 at n = 31. -/
def shl_i32_checked (n : ℕ) : Option ℤ :=
  if n < 32 then some (toI32 (2 ^ n)) else none

/-- The macrocell edge computation (1 << self.min_n()) as f32 of
GridView::view_rects, with the i32 shift made explicit. -/
def GridView.cell_scale_grid_i32 (v : GridView) : Option ℤ :=
  shl_i32_checked v.min_n

/-- The grid space rectangle of one visible cell, from GridView::view_rects:
Rect::from_center_size(pos_grid, tile_size_grid), with the cell edge passed
in (cell_scale_grid in the source). -/
def GridView.tile_rect_grid (cell_scale_grid : ℚ) (xy : ℤ × ℤ) : Rect :=
  Rect.from_center_size ((xy.1 : ℚ), (xy.2 : ℚ)) (cell_scale_grid, cell_scale_grid)

/-- The pixel space rectangle yielded for one visible cell, from
GridView::view_rects: Rect::from_center_size((pos_grid - center) * scale +
view_center_px, tile_size_px), with the pixel cell edge passed in
(cell_scale_grid_px in the source). -/
def GridView.tile_rect_px (v : GridView) (cell_scale_grid_px : ℚ) (view_size_px : ℚ × ℚ)
    (xy : ℤ × ℤ) : Rect :=
  Rect.from_center_size (v.grid_to_px ((xy.1 : ℚ), (xy.2 : ℚ)) view_size_px)
    (cell_scale_grid_px, cell_scale_grid_px)

/-- GridView::view_rects from the source: compute the macrocell edge with the
i32 shift (none models the shift overflow at min_n of 32 or more); for each
cell of the visible set, yield its pixel rectangle when its grid rectangle
intersects the viewbox. -/
def GridView.view_rects (v : GridView) (view_size_px : ℚ × ℚ) : Option (List Rect) :=
  v.cell_scale_grid_i32.map fun (shifted : ℤ) =>
    let cell_scale_grid : ℚ := (shifted : ℚ)
    let cell_scale_grid_px : ℚ := cell_scale_grid * v.scale
    v.grid.filterMap fun xy =>
      if (v.viewbox_grid view_size_px).intersects (GridView.tile_rect_grid cell_scale_grid xy)
      then some (v.tile_rect_px cell_scale_grid_px view_size_px xy)
      else none

/-- A user view manipulation: one drag or one zoom call, as dispatched by
GridView::show. -/
inductive ViewAction : Type
  | drag (delta : ℚ × ℚ)
  | zoom (delta : ℚ) (cursor_px : ℚ × ℚ) (view_size_px : ℚ × ℚ)

/-- Apply one view action to the view state. -/
def applyViewAction (v : GridView) : ViewAction → GridView
  | ViewAction.drag d => v.drag d
  | ViewAction.zoom d c s => v.zoom d c s

/-- A zoom delta factor that keeps 1 + delta positive; drags are unrestricted. -/
def ViewAction.deltaOk : ViewAction → Prop
  | ViewAction.drag _ => True
  | ViewAction.zoom d _ _ => -1 < d

/-- C1: Zoom is anchored at the cursor: with scale > 0 and a delta factor of
absolute value below 1, the grid point under the cursor is unchanged by
zoom (exactly, over the rationals, hence within any tolerance). -/
theorem c1_zoom_anchored (v : GridView) (hs : 0 < v.scale) (d : ℚ) (hd : |d| < 1)
    (c s : ℚ × ℚ) :
    (v.zoom d c s).cursor_pos_grid c s = v.cursor_pos_grid c s := by
  have hd1 : (0 : ℚ) < 1 + d := by
    have := (abs_lt.mp hd).1
    linarith
  have hsd : v.scale + d * v.scale ≠ 0 := by
    have : v.scale + d * v.scale = v.scale * (1 + d) := by ring
    rw [this]
    exact mul_ne_zero (ne_of_gt hs) (ne_of_gt hd1)
  have hs0 : v.scale ≠ 0 := ne_of_gt hs
  simp only [GridView.zoom, GridView.cursor_pos_grid, GridView.calc_cursor_grid,
    Prod.mk.injEq]
  constructor <;> (field_simp; ring)

/-- Witness for C1 at a concrete view state, delta 1/2, cursor (100, 50). -/
theorem c1_zoom_anchored_witness :
    (GridView.new.zoom (1 / 2) (100, 50) (720, 480)).cursor_pos_grid (100, 50) (720, 480)
      = GridView.new.cursor_pos_grid (100, 50) (720, 480) :=
  c1_zoom_anchored GridView.new (by norm_num [GridView.new]) (1 / 2) (by rw [abs_lt]; constructor <;> norm_num)
    (100, 50) (720, 480)

/-- C3 counterexample: the source has no clamping; a single zoom call with
delta factor -1 drives the scale of the fresh view state (scale 20) to
exactly 0, so the claimed invariant over all delta factors is false. -/
theorem c3_counterexample :
    ¬ (0 < ([ViewAction.zoom (-1) (0, 0) (720, 480)].foldl applyViewAction GridView.new).scale) := by
  simp [applyViewAction, GridView.new, GridView.zoom]

/-- C3 amended: drags never change the scale and a zoom multiplies it by
1 + delta, so the scale stays strictly positive for every sequence of drag
and zoom calls whose zoom delta factors all exceed -1; the code contains no
clamping, and a delta factor of -1 or below drives the scale to 0 or below. -/
theorem c3_scale_positive (v : GridView) (hs : 0 < v.scale) (acts : List ViewAction)
    (hacts : ∀ a ∈ acts, a.deltaOk) :
    0 < (acts.foldl applyViewAction v).scale := by
  induction acts generalizing v with
  | nil => exact hs
  | cons a rest ih =>
    have ha : a.deltaOk := hacts a (List.mem_cons_self a rest)
    have hrest : ∀ b ∈ rest, b.deltaOk := fun b hb => hacts b (List.mem_cons_of_mem a hb)
    rw [List.foldl_cons]
    refine ih (applyViewAction v a) ?_ hrest
    cases a with
    | drag d => simpa [applyViewAction, GridView.drag] using hs
    | zoom d c s =>
      have hd : -1 < d := ha
      have : v.scale + d * v.scale = v.scale * (1 + d) := by ring
      simp only [applyViewAction, GridView.zoom]
      rw [this]
      exact mul_pos hs (by linarith)

/-- Witness for C3 amended: a drag followed by a zoom with delta 1/2 keeps the
scale positive. -/
theorem c3_scale_positive_witness :
    0 < ([ViewAction.drag (5, 3), ViewAction.zoom (1 / 2) (10, 20) (720, 480)].foldl
          applyViewAction GridView.new).scale :=
  c3_scale_positive GridView.new (by norm_num [GridView.new])
    [ViewAction.drag (5, 3), ViewAction.zoom (1 / 2) (10, 20) (720, 480)]
    (by
      intro a ha
      simp only [List.mem_cons, List.mem_singleton] at ha
      rcases ha with rfl | rfl | h
      · trivial
      · norm_num [ViewAction.deltaOk]
      · cases h)

/-- C5: the pixel placement used for rendered rectangles composed with the
cursor to grid conversion is the identity on grid points, for every view state
with nonzero scale (exactly, over the rationals). -/
theorem c5_transform_round_trip (v : GridView) (hs : 0 < v.scale) (g s : ℚ × ℚ) :
    v.cursor_pos_grid (v.grid_to_px g s) s = g := by
  have hs0 : v.scale ≠ 0 := ne_of_gt hs
  obtain ⟨g1, g2⟩ := g
  simp only [GridView.cursor_pos_grid, GridView.calc_cursor_grid, GridView.grid_to_px,
    Prod.mk.injEq]
  constructor <;> field_simp

/-- Witness for C5 at a concrete view state and grid point (7, -3). -/
theorem c5_transform_round_trip_witness :
    GridView.new.cursor_pos_grid (GridView.new.grid_to_px (7, -3) (720, 480)) (720, 480)
      = (7, -3) :=
  c5_transform_round_trip GridView.new (by norm_num [GridView.new]) (7, -3) (720, 480)

/-- The integer floor log base 2 over the rationals agrees with its value after
casting the argument to the reals (used to connect min_n with Real.logb). -/
theorem int_log_two_ratCast (q : ℚ) (hq : 0 < q) :
    Int.log 2 ((q : ℝ)) = Int.log 2 q := by
  have hqR : (0 : ℝ) < (q : ℝ) := by exact_mod_cast hq
  have hq1 : ((2 : ℕ) : ℚ) ^ (Int.log 2 q) ≤ q := Int.zpow_log_le_self (by norm_num) hq
  have hq2 : q < ((2 : ℕ) : ℚ) ^ (Int.log 2 q + 1) := Int.lt_zpow_succ_log_self (by norm_num) q
  have h1 : ((2 : ℕ) : ℝ) ^ (Int.log 2 q) ≤ (q : ℝ) := by
    calc ((2 : ℕ) : ℝ) ^ (Int.log 2 q) = ((((2 : ℕ) : ℚ) ^ (Int.log 2 q) : ℚ) : ℝ) := by
          rw [Rat.cast_zpow, Rat.cast_natCast]
      _ ≤ (q : ℝ) := by exact_mod_cast hq1
  have h2 : (q : ℝ) < ((2 : ℕ) : ℝ) ^ (Int.log 2 q + 1) := by
    calc (q : ℝ) < ((((2 : ℕ) : ℚ) ^ (Int.log 2 q + 1) : ℚ) : ℝ) := by exact_mod_cast hq2
      _ = ((2 : ℕ) : ℝ) ^ (Int.log 2 q + 1) := by rw [Rat.cast_zpow, Rat.cast_natCast]
  have hle : Int.log 2 q ≤ Int.log 2 ((q : ℝ)) :=
    (Int.zpow_le_iff_le_log (by norm_num) hqR).mp h1
  have hlt : Int.log 2 ((q : ℝ)) < Int.log 2 q + 1 :=
    (Int.lt_zpow_iff_log_lt (by norm_num) hqR).mp h2
  omega

/-- C4: for every positive scale, min_n is the floor of log2(1/scale) clamped
to be at least 0 (the saturating cast), and for every scale of at least 1 it
is exactly 0. -/
theorem c4_min_n_clamped_floor_log (v : GridView) (hs : 0 < v.scale) :
    ((v.min_n : ℤ) = max ⌊Real.logb 2 (1 / (v.scale : ℝ))⌋ 0)
    ∧ (1 ≤ v.scale → v.min_n = 0) := by
  have hq : 0 < (1 / v.scale : ℚ) := by positivity
  have hcast : ((1 / v.scale : ℚ) : ℝ) = 1 / (v.scale : ℝ) := by push_cast; ring
  constructor
  · have hr0 : (0 : ℝ) ≤ ((1 / v.scale : ℚ) : ℝ) := by exact_mod_cast hq.le
    have h2R : ((2 : ℕ) : ℝ) = (2 : ℝ) := by norm_num
    have hfloor : ⌊Real.logb 2 (1 / (v.scale : ℝ))⌋ = Int.log 2 (1 / v.scale : ℚ) := by
      rw [← hcast, ← h2R, Real.floor_logb_natCast hr0, int_log_two_ratCast _ hq]
    rw [hfloor, GridView.min_n, Int.toNat_eq_max]
  · intro h1s
    have hle1 : (1 / v.scale : ℚ) ≤ 1 := by
      rw [div_le_one hs]
      exact h1s
    have hlog : Int.log 2 (1 / v.scale : ℚ) ≤ 0 := by
      have := Int.log_mono_right (b := 2) hq hle1
      simpa using this
    rw [GridView.min_n]
    exact Int.toNat_of_nonpos hlog

/-- Witness for C4 at the initial scale 20 (at least 1, so min_n is 0). -/
theorem c4_min_n_clamped_floor_log_witness :
    ((GridView.new.min_n : ℤ) = max ⌊Real.logb 2 (1 / ((GridView.new.scale : ℚ) : ℝ))⌋ 0)
    ∧ (1 ≤ GridView.new.scale → GridView.new.min_n = 0) :=
  c4_min_n_clamped_floor_log GridView.new (by norm_num [GridView.new])

/-- The set_grid closure in GridView::render_life: the visitor inserts
(x as i32, y as i32) into the visible set. -/
def set_grid (c : Coord) : ℤ × ℤ :=
  (toI32 c.1, toI32 c.2)

/-- The storage step of GridView::render_life: the visible set is rebuilt from
the coordinates the windowed enumeration reports, each passed through
set_grid. -/
def render_life_store (visited : List Coord) : List (ℤ × ℤ) :=
  visited.map set_grid

/-- C9 counterexample: the visible set stores 32 bit pairs; the coordinate
(2^31, 0) reported by the enumeration is wrapped by the cast to (-2^31, 0),
so coordinates are not stored exactly as returned. -/
theorem c9_counterexample :
    set_grid (2 ^ 31, 0) = (-(2 ^ 31), 0) ∧ set_grid (2 ^ 31, 0) ≠ ((2 ^ 31 : ℤ), (0 : ℤ)) := by
  constructor
  · rw [set_grid, toI32, toI32]
    norm_num
  · rw [set_grid, toI32, toI32]
    intro h
    rw [Prod.mk.injEq] at h
    revert h
    norm_num

/-- C9 amended: the render path stores each reported coordinate unchanged
exactly when both axes lie in the i32 range; the storage narrows 64 bit
coordinates to 32 bit values with a wrapping cast. -/
theorem c9_render_preserves_in_range (visited : List Coord)
    (hin : ∀ c ∈ visited, -2 ^ 31 ≤ c.1 ∧ c.1 < 2 ^ 31 ∧ -2 ^ 31 ≤ c.2 ∧ c.2 < 2 ^ 31) :
    render_life_store visited = visited := by
  induction visited with
  | nil => rfl
  | cons c rest ih =>
    have hc := hin c (List.mem_cons_self c rest)
    have hrest := fun b hb => hin b (List.mem_cons_of_mem c hb)
    have hcell : set_grid c = c := by
      rw [set_grid, toI32_eq_self c.1 hc.1 hc.2.1, toI32_eq_self c.2 hc.2.2.1 hc.2.2.2]
    simp only [render_life_store, List.map_cons] at ih ⊢
    rw [hcell, ih hrest]

/-- Witness for C9 amended on two small coordinates. -/
theorem c9_render_preserves_in_range_witness :
    render_life_store [(3, 4), (-5, 6)] = [(3, 4), (-5, 6)] :=
  c9_render_preserves_in_range [(3, 4), (-5, 6)] (by decide)

/-- A view state zoomed out so far that min_n is 40. -/
def deepZoomView : GridView :=
  { center := (0, 0), scale := 1 / 2 ^ 40, grid := [], queued_changes := [] }

/-- min_n of the deep zoom view evaluates to 40. -/
theorem deepZoomView_min_n : deepZoomView.min_n = 40 := by
  have hscale : (1 : ℚ) / deepZoomView.scale = ((2 ^ 40 : ℕ) : ℚ) := by
    rw [deepZoomView]
    push_cast
    norm_num
  rw [GridView.min_n, hscale, Int.log_natCast, Nat.log_pow (by norm_num)]
  rfl

/-- C10 counterexample: the literal 1 in the shift has type i32, so the bound
63 from the claim is wrong: the deep zoom view has positive scale and
min_n 40, at most 63, yet the shift overflows. -/
theorem c10_counterexample :
    0 < deepZoomView.scale ∧ deepZoomView.min_n ≤ 63
    ∧ deepZoomView.cell_scale_grid_i32 = none := by
  refine ⟨by norm_num [deepZoomView], by rw [deepZoomView_min_n]; norm_num, ?_⟩
  rw [GridView.cell_scale_grid_i32, deepZoomView_min_n, shl_i32_checked]
  norm_num

/-- C10 amended: the i32 shift in the macrocell edge computation is well
defined exactly when min_n is at most 31 (scale above about 2 to the -31);
for min_n of 32 or more, including values the claim allows up to 63, it is a
shift overflow, and nothing in the code enforces the bound. -/
theorem c10_shift_welldef_iff (v : GridView) :
    v.cell_scale_grid_i32.isSome = true ↔ v.min_n ≤ 31 := by
  rw [GridView.cell_scale_grid_i32, shl_i32_checked]
  by_cases h : v.min_n < 32 <;> simp [h] <;> omega

/-- One iteration of the commit loop in GridView::update_life: translate the
drained coordinate by the origin bias 2^(MAX_N - 1) per axis, read the current
value, invert it, and call modify at depth MAX_N; the returned Handle replaces
the working one. -/
def commit_step (node : Handle) (xy : Coord) : Handle :=
  let coord : Coord := (xy.1 + 2 ^ (MAX_N - 1), xy.2 + 2 ^ (MAX_N - 1))
  let value := !(HashLife.read node coord)
  HashLife.modify node coord value MAX_N

/-- GridView::update_life from the source: drain the queued changes and apply
commit_step for each drained coordinate in turn (the queue is empty after the
drain). -/
def update_life (node : Handle) (queue : List Coord) : Handle :=
  queue.foldl commit_step node

/-- Committing a coordinate inverts the oracle value at its biased address. -/
theorem read_commit_step_same (h : Handle) (xy : Coord) :
    HashLife.read (commit_step h xy) (xy.1 + 2 ^ (MAX_N - 1), xy.2 + 2 ^ (MAX_N - 1))
      = !(HashLife.read h (xy.1 + 2 ^ (MAX_N - 1), xy.2 + 2 ^ (MAX_N - 1))) := by
  simp [commit_step, HashLife.read, HashLife.modify]

/-- Committing a coordinate leaves the oracle value at the biased address of
any other coordinate unchanged (the bias translation is injective). -/
theorem read_commit_step_other (h : Handle) (a xy : Coord) (hne : xy ≠ a) :
    HashLife.read (commit_step h a) (xy.1 + 2 ^ (MAX_N - 1), xy.2 + 2 ^ (MAX_N - 1))
      = HashLife.read h (xy.1 + 2 ^ (MAX_N - 1), xy.2 + 2 ^ (MAX_N - 1)) := by
  have hnea : (xy.1 + 2 ^ (MAX_N - 1), xy.2 + 2 ^ (MAX_N - 1))
      ≠ (a.1 + 2 ^ (MAX_N - 1), a.2 + 2 ^ (MAX_N - 1)) := by
    intro hcontra
    rw [Prod.mk.injEq] at hcontra
    exact hne (Prod.ext_iff.mpr ⟨by linarith [hcontra.1], by linarith [hcontra.2]⟩)
  simp [commit_step, HashLife.read, HashLife.modify, hnea]

/-- A commit of a queue not containing a coordinate leaves the oracle value at
its biased address unchanged. -/
theorem update_life_read_not_mem (q : List Coord) (h : Handle) (xy : Coord) (hnm : xy ∉ q) :
    HashLife.read (update_life h q) (xy.1 + 2 ^ (MAX_N - 1), xy.2 + 2 ^ (MAX_N - 1))
      = HashLife.read h (xy.1 + 2 ^ (MAX_N - 1), xy.2 + 2 ^ (MAX_N - 1)) := by
  induction q generalizing h with
  | nil => rfl
  | cons a rest ih =>
    have hne : xy ≠ a := fun hcontra => hnm (hcontra ▸ List.mem_cons_self a rest)
    have hnm2 : xy ∉ rest := fun hc => hnm (List.mem_cons_of_mem a hc)
    rw [show update_life h (a :: rest) = update_life (commit_step h a) rest from rfl,
      ih (commit_step h a) hnm2, read_commit_step_other h a xy hne]

/-- C6: committing the pending queue toggles the oracle value at the biased
address (x + 2^(MAX_N-1), y + 2^(MAX_N-1)) of every queued coordinate: the
oracle afterwards reports true there exactly when it reported false before.
The working handle is the fold of the modify returns over the drained queue. -/
theorem c6_toggle_commit (h : Handle) (q : List Coord) (xy : Coord)
    (hmem : xy ∈ q) (hnd : q.Nodup) :
    HashLife.read (update_life h q) (xy.1 + 2 ^ (MAX_N - 1), xy.2 + 2 ^ (MAX_N - 1))
      = !(HashLife.read h (xy.1 + 2 ^ (MAX_N - 1), xy.2 + 2 ^ (MAX_N - 1))) := by
  induction q generalizing h with
  | nil => cases hmem
  | cons a rest ih =>
    rcases List.mem_cons.mp hmem with rfl | hmem2
    · have hnotin : xy ∉ rest := (List.nodup_cons.mp hnd).1
      rw [show update_life h (xy :: rest) = update_life (commit_step h xy) rest from rfl,
        update_life_read_not_mem rest _ xy hnotin, read_commit_step_same]
    · have hne : xy ≠ a := by
        rintro rfl
        exact ((List.nodup_cons.mp hnd).1 hmem2).elim
      rw [show update_life h (a :: rest) = update_life (commit_step h a) rest from rfl,
        ih (commit_step h a) hmem2 (List.nodup_cons.mp hnd).2, read_commit_step_other h a xy hne]

/-- Witness for C6: committing the single queued coordinate (2, 3) over the
empty universe makes the oracle report true at the biased address. -/
theorem c6_toggle_commit_witness :
    HashLife.read (update_life (fun _ => false) [(2, 3)])
        (((2 : ℤ), (3 : ℤ)).1 + 2 ^ (MAX_N - 1), ((2 : ℤ), (3 : ℤ)).2 + 2 ^ (MAX_N - 1))
      = !(HashLife.read (fun _ => false)
        (((2 : ℤ), (3 : ℤ)).1 + 2 ^ (MAX_N - 1), ((2 : ℤ), (3 : ℤ)).2 + 2 ^ (MAX_N - 1))) :=
  c6_toggle_commit (fun _ => false) [(2, 3)] (2, 3) (List.mem_singleton.mpr rfl)
    (List.nodup_singleton _)

/-- The edit intents named by the spec; the source has no such type: its
pending buffer is a bare coordinate set and every edit is a toggle. -/
inductive Intent : Type
  | SetAlive
  | SetDead
  | Toggle

/-- The enqueue scenario of the claim mapped onto the source: the pending
buffer of GridView has type HashSet<Coord>, so an enqueue carrying an intent
reaches the buffer as its coordinate alone and the intent is discarded by the
buffer type itself. -/
def enqueueWithIntents (edits : List (Coord × Intent)) : List Coord :=
  edits.foldl (fun q e => queueInsert q e.1) []

/-- C7 counterexample: after enqueuing (0,0) with SetAlive and then with
SetDead the buffer is the single bare coordinate (0,0); no reading of the
buffer can report the last intent, because the buffer after SetAlive-then-
SetDead is identical to the buffer after SetDead-then-SetAlive. -/
theorem c7_counterexample :
    enqueueWithIntents [((0, 0), Intent.SetAlive), ((0, 0), Intent.SetDead)]
        = [((0 : ℤ), (0 : ℤ))]
    ∧ ¬ ∃ f : List Coord → Intent,
        f (enqueueWithIntents [((0, 0), Intent.SetAlive), ((0, 0), Intent.SetDead)])
            = Intent.SetDead
        ∧ f (enqueueWithIntents [((0, 0), Intent.SetDead), ((0, 0), Intent.SetAlive)])
            = Intent.SetAlive := by
  refine ⟨by simp [enqueueWithIntents, queueInsert], ?_⟩
  rintro ⟨f, h1, h2⟩
  have hsame : enqueueWithIntents [((0, 0), Intent.SetAlive), ((0, 0), Intent.SetDead)]
      = enqueueWithIntents [((0, 0), Intent.SetDead), ((0, 0), Intent.SetAlive)] := by
    simp [enqueueWithIntents, queueInsert]
  rw [hsame] at h1
  rw [h1] at h2
  cases h2

/-- The toFinset content of a queue insert is a Finset insert. -/
theorem toFinset_queueInsert (q : List Coord) (c : Coord) :
    (queueInsert q c).toFinset = insert c q.toFinset := by
  by_cases hc : c ∈ q
  · rw [queueInsert, if_pos hc, eq_comm]
    exact Finset.insert_eq_self.mpr (List.mem_toFinset.mpr hc)
  · rw [queueInsert, if_neg hc, List.toFinset_cons]

/-- C7 amended: the pending buffer keeps at most one entry per coordinate
(inserting into a duplicate free buffer keeps it duplicate free and the
inserted coordinate present, hence present exactly once), inserting the same
coordinate twice equals inserting it once, and the buffer content as a set is
independent of insertion order; entries are bare coordinates with no intent. -/
theorem c7_dedup_last_write (q : List Coord) (c a b : Coord) (hnd : q.Nodup) :
    ((queueInsert q c).Nodup ∧ c ∈ queueInsert q c)
    ∧ queueInsert (queueInsert q c) c = queueInsert q c
    ∧ (queueInsert (queueInsert q a) b).toFinset = (queueInsert (queueInsert q b) a).toFinset := by
  refine ⟨?_, ?_, ?_⟩
  · by_cases hc : c ∈ q
    · rw [queueInsert, if_pos hc]
      exact ⟨hnd, hc⟩
    · rw [queueInsert, if_neg hc]
      exact ⟨List.nodup_cons.mpr ⟨hc, hnd⟩, List.mem_cons_self c q⟩
  · by_cases hc : c ∈ q <;> simp [queueInsert, hc]
  · rw [toFinset_queueInsert, toFinset_queueInsert, toFinset_queueInsert,
      toFinset_queueInsert, Finset.Insert.comm]

/-- Witness for C7 amended on a concrete buffer holding (1, 2). -/
theorem c7_dedup_last_write_witness :
    (((queueInsert [(1, 2)] (0, 0)).Nodup ∧ (0, 0) ∈ queueInsert [(1, 2)] (0, 0))
    ∧ queueInsert (queueInsert [(1, 2)] (0, 0)) (0, 0) = queueInsert [(1, 2)] (0, 0)
    ∧ (queueInsert (queueInsert [(1, 2)] (3, 4)) (5, 6)).toFinset
        = (queueInsert (queueInsert [(1, 2)] (5, 6)) (3, 4)).toFinset) :=
  c7_dedup_last_write [(1, 2)] (0, 0) (3, 4) (5, 6) (List.nodup_singleton _)

/-- The per frame events on the working Handle and the edit queue, in the
order the code runs them: the simulation step in MashlifeGui::update, then
inside GridView::show an optional enqueue on click, the commit in
update_life, and the windowed render query in render_life. -/
inductive FrameEv : Type
  | step
  | enqueue
  | commit
  | render
deriving DecidableEq

/-- The user input sampled by one frame: an optional drag delta, an optional
hover position with scroll amount, and whether a click happened. -/
structure FrameInput where
  dragDelta : Option (ℚ × ℚ)
  hover : Option (ℚ × ℚ)
  scroll : ℚ
  clicked : Bool

/-- The rectangle handed to the resolve query in GridView::render_life: the
viewbox in grid space, floored and ceiled per corner, biased by the view
center. -/
def render_rect (v : GridView) (view_size_px : ℚ × ℚ) (view_center : Coord) : Coord × Coord :=
  let r := v.viewbox_grid view_size_px
  ((⌊r.min.1⌋ + view_center.1, ⌊r.min.2⌋ + view_center.2),
   (⌈r.max.1⌉ + view_center.1, ⌈r.max.2⌉ + view_center.2))

/-- One rendered frame, following MashlifeGui::update and GridView::show.
stepFn abstracts the oracle step (life.result then life.expand, modelled from
the spec); resolveFn abstracts the windowed enumeration of life.resolve.  The
code order is: step, input handling (drag, zoom, click enqueue), painting of
view_rects, then update_life (the commit, which drains the queue), then
render_life.  The returned list logs the Handle and queue events in order. -/
def frame (stepFn : Handle → Handle)
    (resolveFn : Handle → ℕ → Coord × Coord → List Coord)
    (view_size_px : ℚ × ℚ) (view_center : Coord) (inp : FrameInput)
    (st : GridView × Handle) : (GridView × Handle) × List FrameEv :=
  let h1 := stepFn st.2
  let gv1 := match inp.dragDelta with
    | some d => st.1.drag d
    | none => st.1
  let gv2 := match inp.hover with
    | some pos =>
        let gvz := gv1.zoom (inp.scroll * (1 / 1000)) pos view_size_px
        if inp.clicked then gvz.modify pos view_size_px else gvz
    | none => gv1
  let enqEv : List FrameEv := match inp.hover with
    | some _ => if inp.clicked then [FrameEv.enqueue] else []
    | none => []
  let h2 := update_life h1 gv2.queued_changes
  let gv3 : GridView := { gv2 with queued_changes := [] }
  let gv4 : GridView :=
    { gv3 with grid :=
        render_life_store (resolveFn h2 gv3.min_n (render_rect gv3 view_size_px view_center)) }
  ((gv4, h2), FrameEv.step :: (enqEv ++ [FrameEv.commit, FrameEv.render]))

/-- A run of frames; alongside the final state it collects, per frame, the
event log and the queue content at frame start. -/
def runFrames (stepFn : Handle → Handle)
    (resolveFn : Handle → ℕ → Coord × Coord → List Coord)
    (view_size_px : ℚ × ℚ) (view_center : Coord) :
    List FrameInput → GridView × Handle → (GridView × Handle) × List (List FrameEv × List Coord)
  | [], st => (st, [])
  | inp :: rest, st =>
    let fr := frame stepFn resolveFn view_size_px view_center inp st
    let next := runFrames stepFn resolveFn view_size_px view_center rest fr.1
    (next.1, (fr.2, st.1.queued_changes) :: next.2)

/-- A trivial oracle step, for concrete runs. -/
def stepId : Handle → Handle := fun h => h

/-- A windowed enumeration reporting nothing, for concrete runs. -/
def resolveNone : Handle → ℕ → Coord × Coord → List Coord := fun _ _ _ => []

/-- One frame of input holding a hover position and a click. -/
def clickInput : FrameInput :=
  { dragDelta := none, hover := some (100, 50), scroll := 0, clicked := true }

/-- Every frame leaves the pending queue empty: update_life drains it and no
enqueue happens after the commit within a frame. -/
theorem frame_queue_empty (stepFn : Handle → Handle)
    (resolveFn : Handle → ℕ → Coord × Coord → List Coord)
    (view_size_px : ℚ × ℚ) (view_center : Coord) (inp : FrameInput)
    (st : GridView × Handle) :
    ((frame stepFn resolveFn view_size_px view_center inp st).1).1.queued_changes = [] :=
  rfl

/-- The event log of a frame is step, commit, render, with an enqueue between
the step and the commit exactly when the frame hovers and clicks. -/
theorem frame_log_shape (stepFn : Handle → Handle)
    (resolveFn : Handle → ℕ → Coord × Coord → List Coord)
    (view_size_px : ℚ × ℚ) (view_center : Coord) (inp : FrameInput)
    (st : GridView × Handle) :
    (frame stepFn resolveFn view_size_px view_center inp st).2
        = [FrameEv.step, FrameEv.commit, FrameEv.render]
    ∨ (frame stepFn resolveFn view_size_px view_center inp st).2
        = [FrameEv.step, FrameEv.enqueue, FrameEv.commit, FrameEv.render] := by
  cases hh : inp.hover with
  | none => left; simp [frame, hh]
  | some pos =>
    cases hc : inp.clicked with
    | false => left; simp [frame, hh, hc]
    | true => right; simp [frame, hh, hc]

/-- In a frame log of either shape, every step event precedes every commit
event and every commit event precedes every render event. -/
theorem log_order_of_shape (l : List FrameEv)
    (hshape : l = [FrameEv.step, FrameEv.commit, FrameEv.render]
      ∨ l = [FrameEv.step, FrameEv.enqueue, FrameEv.commit, FrameEv.render]) :
    (∀ i j : Fin l.length, l.get i = FrameEv.step → l.get j = FrameEv.commit → i < j)
    ∧ (∀ i j : Fin l.length, l.get i = FrameEv.commit → l.get j = FrameEv.render → i < j) := by
  rcases hshape with rfl | rfl <;> exact (by decide)

/-- C2 counterexample: in the concrete frame that hovers and clicks, the log
is step, enqueue, commit, render: no commit event precedes a step event, so
within a rendered frame the pending edit commit does not happen before the
simulation step; the step runs first and the commit follows late in the
frame. -/
theorem c2_counterexample :
    (frame stepId resolveNone (720, 480) (0, 0) clickInput (GridView.new, fun _ => false)).2
        = [FrameEv.step, FrameEv.enqueue, FrameEv.commit, FrameEv.render]
    ∧ ¬ ∃ i j : Fin (frame stepId resolveNone (720, 480) (0, 0) clickInput
          (GridView.new, fun _ => false)).2.length,
        i < j
        ∧ (frame stepId resolveNone (720, 480) (0, 0) clickInput
            (GridView.new, fun _ => false)).2.get i = FrameEv.commit
        ∧ (frame stepId resolveNone (720, 480) (0, 0) clickInput
            (GridView.new, fun _ => false)).2.get j = FrameEv.step := by
  exact ⟨rfl, by decide⟩

/-- C2 amended: per rendered frame the code order is step first, then commit,
then the render query; but the commit at the end of each frame drains the
queue, so in any run that starts with an empty queue the step at the start of
each frame runs on a Handle with no uncommitted edits queued from before the
frame began (every recorded frame start queue is empty), and the run ends
with an empty queue. -/
theorem c2_step_precedes_commit (stepFn : Handle → Handle)
    (resolveFn : Handle → ℕ → Coord × Coord → List Coord)
    (view_size_px : ℚ × ℚ) (view_center : Coord) (inps : List FrameInput)
    (st : GridView × Handle) (hq : st.1.queued_changes = []) :
    (∀ p ∈ (runFrames stepFn resolveFn view_size_px view_center inps st).2,
        p.2 = []
        ∧ (∀ i j : Fin p.1.length, p.1.get i = FrameEv.step → p.1.get j = FrameEv.commit → i < j)
        ∧ (∀ i j : Fin p.1.length, p.1.get i = FrameEv.commit → p.1.get j = FrameEv.render → i < j))
    ∧ (runFrames stepFn resolveFn view_size_px view_center inps st).1.1.queued_changes = [] := by
  induction inps generalizing st with
  | nil =>
    exact ⟨by simp [runFrames], by simpa [runFrames] using hq⟩
  | cons inp rest ih =>
    obtain ⟨ihA, ihB⟩ := ih (frame stepFn resolveFn view_size_px view_center inp st).1
      (frame_queue_empty stepFn resolveFn view_size_px view_center inp st)
    constructor
    · intro p hp
      simp only [runFrames, List.mem_cons] at hp
      rcases hp with rfl | hp2
      · refine ⟨hq, ?_⟩
        exact log_order_of_shape _
          (frame_log_shape stepFn resolveFn view_size_px view_center inp st)
      · exact ihA p hp2
    · simpa [runFrames] using ihB

/-- Witness for C2 amended: a one frame run from the fresh state with a click. -/
theorem c2_step_precedes_commit_witness :
    (∀ p ∈ (runFrames stepId resolveNone (720, 480) (0, 0) [clickInput]
          (GridView.new, fun _ => false)).2,
        p.2 = []
        ∧ (∀ i j : Fin p.1.length, p.1.get i = FrameEv.step → p.1.get j = FrameEv.commit → i < j)
        ∧ (∀ i j : Fin p.1.length, p.1.get i = FrameEv.commit → p.1.get j = FrameEv.render → i < j))
    ∧ (runFrames stepId resolveNone (720, 480) (0, 0) [clickInput]
        (GridView.new, fun _ => false)).1.1.queued_changes = [] :=
  c2_step_precedes_commit stepId resolveNone (720, 480) (0, 0) [clickInput]
    (GridView.new, fun _ => false) rfl

/-- A view state zoomed out to min_n 40 with one visible cell at the origin. -/
def c8View : GridView :=
  { center := (0, 0), scale := 1 / 2 ^ 40, grid := [(0, 0)], queued_changes := [] }

/-- C8 counterexample: at min_n 40 the i32 shift in view_rects overflows, so
the enumeration yields nothing at all, although the visible cell (0,0) has a
grid square of side 2^min_n that does intersect the viewport rectangle: the
claimed equivalence over every view state fails at this one. -/
theorem c8_counterexample :
    c8View.view_rects (720, 480) = none
    ∧ (c8View.viewbox_grid (720, 480)).intersects
        (GridView.tile_rect_grid ((2 : ℚ) ^ c8View.min_n) (0, 0)) = true
    ∧ ((0 : ℤ), (0 : ℤ)) ∈ c8View.grid := by
  have h40 : c8View.min_n = 40 := deepZoomView_min_n
  refine ⟨?_, ?_, ?_⟩
  · rw [GridView.view_rects, GridView.cell_scale_grid_i32, h40, shl_i32_checked]
    simp
  · rw [h40]
    norm_num [c8View, GridView.viewbox_grid, GridView.tile_rect_grid, Rect.from_center_size,
      Rect.intersects]
  · decide

/-- C8 amended: for every view state whose min_n is at most 30 (so that the
i32 shift equals 2^min_n; at min_n 31 the shift wraps to -2^31 and from 32 on
it overflows, as the counterexample shows), view_rects yields a list holding
the pixel rectangle of a cell of the visible set exactly when the grid square
of side 2^min_n centered on the cell intersects the viewbox rectangle. -/
theorem c8_culling_iff (v : GridView) (s : ℚ × ℚ) (hn : v.min_n ≤ 30) :
    ∃ l, v.view_rects s = some l
      ∧ (∀ r ∈ l, ∃ xy ∈ v.grid,
          (v.viewbox_grid s).intersects (GridView.tile_rect_grid ((2 : ℚ) ^ v.min_n) xy) = true
          ∧ r = v.tile_rect_px ((2 : ℚ) ^ v.min_n * v.scale) s xy)
      ∧ (∀ xy ∈ v.grid,
          (v.viewbox_grid s).intersects (GridView.tile_rect_grid ((2 : ℚ) ^ v.min_n) xy) = true →
          v.tile_rect_px ((2 : ℚ) ^ v.min_n * v.scale) s xy ∈ l) := by
  have hlt : v.min_n < 32 := by omega
  have h0 : (0 : ℤ) ≤ 2 ^ v.min_n := pow_nonneg (by norm_num) _
  have hrange2 : (2 : ℤ) ^ v.min_n < 2 ^ 31 :=
    lt_of_le_of_lt (pow_le_pow_right₀ (by norm_num) hn) (by norm_num)
  have hval : v.cell_scale_grid_i32 = some ((2 : ℤ) ^ v.min_n) := by
    rw [GridView.cell_scale_grid_i32, shl_i32_checked, if_pos hlt,
      toI32_eq_self _ (by linarith) hrange2]
  have hcast : (((2 : ℤ) ^ v.min_n : ℤ) : ℚ) = (2 : ℚ) ^ v.min_n := by push_cast; ring
  refine ⟨v.grid.filterMap fun xy =>
      if (v.viewbox_grid s).intersects (GridView.tile_rect_grid ((2 : ℚ) ^ v.min_n) xy)
      then some (v.tile_rect_px ((2 : ℚ) ^ v.min_n * v.scale) s xy)
      else none, ?_, ?_, ?_⟩
  · simp only [GridView.view_rects, hval, Option.map_some', hcast]
  · intro r hr
    simp only [List.mem_filterMap] at hr
    obtain ⟨xy, hxy, hsome⟩ := hr
    split at hsome
    case isTrue h =>
      exact ⟨xy, hxy, h, by injection hsome with h2; exact h2.symm⟩
    case isFalse h =>
      cases hsome
  · intro xy hxy hint
    simp only [List.mem_filterMap]
    exact ⟨xy, hxy, by simp [hint]⟩

/-- The fresh view state has min_n 0 (scale 20 is at least 1). -/
theorem gridViewNew_min_n : GridView.new.min_n = 0 := by
  rw [GridView.min_n]
  apply Int.toNat_of_nonpos
  have h0 : (0 : ℚ) < 1 / GridView.new.scale := by norm_num [GridView.new]
  have h1 : (1 / GridView.new.scale : ℚ) ≤ 1 := by norm_num [GridView.new]
  have := Int.log_mono_right (b := 2) h0 h1
  simpa using this

/-- Witness for C8 amended at the fresh view state (min_n 0). -/
theorem c8_culling_iff_witness :
    GridView.new.min_n ≤ 30
    ∧ ∃ l, GridView.new.view_rects (720, 480) = some l
      ∧ (∀ r ∈ l, ∃ xy ∈ GridView.new.grid,
          (GridView.new.viewbox_grid (720, 480)).intersects
            (GridView.tile_rect_grid ((2 : ℚ) ^ GridView.new.min_n) xy) = true
          ∧ r = GridView.new.tile_rect_px ((2 : ℚ) ^ GridView.new.min_n * GridView.new.scale)
              (720, 480) xy)
      ∧ (∀ xy ∈ GridView.new.grid,
          (GridView.new.viewbox_grid (720, 480)).intersects
            (GridView.tile_rect_grid ((2 : ℚ) ^ GridView.new.min_n) xy) = true →
          GridView.new.tile_rect_px ((2 : ℚ) ^ GridView.new.min_n * GridView.new.scale)
            (720, 480) xy ∈ l) :=
  ⟨by rw [gridViewNew_min_n]; norm_num,
   c8_culling_iff GridView.new (720, 480) (by rw [gridViewNew_min_n]; norm_num)⟩
